/-
Verification of the image re-encoding pipeline of the file-converter
repository (class `ImageConverter`): `convertFormat`, `compressImage` and
`batchProcess`, together with the surrounding data model.

Modelling conventions:
* JavaScript numbers are modelled as exact rationals (`ℚ`); byte counts as `ℕ`.
* A `File` input carries its decode result: `decoded = some img` means the
  browser's `Image` element fires `onload` with natural dimensions
  `img.width × img.height`; `decoded = none` means `onerror` fires
  (the promise rejects with "圖片載入失敗").
* The canvas encoder (`canvas.toBlob`) is an abstract environment parameter
  `Encoder : EncodeParams → Option ℕ` mapping the canvas state (dimensions,
  MIME type, quality, optional whole-surface background fill) to the byte
  size of the produced blob, or `none` when `toBlob` yields `null`
  (the promise rejects with "格式轉換失敗").
* Assigning a rational to `canvas.width` / `canvas.height` performs the
  WebIDL unsigned-long coercion: truncation toward zero and reduction
  modulo 2^32 (`canvasDim`); for the nonnegative dimensions arising here
  truncation coincides with the floor.
-/
import Mathlib

namespace FileConverter

/-- A decoded raster image: the natural dimensions reported by `img.onload`. -/
structure DecodedImage where
  width : ℚ
  height : ℚ
deriving DecidableEq, Repr

/-- An input file: name, MIME type, byte size, and its decode result
(`none` when the bytes do not decode as a raster image). -/
structure InputFile where
  name : String
  type : String
  size : ℕ
  decoded : Option DecodedImage
deriving DecidableEq, Repr

/-- The canvas state handed to `canvas.toBlob`: canvas dimensions (after the
unsigned-long coercion), MIME type string, quality factor, and the optional
background color with which the whole surface was filled before drawing. -/
structure EncodeParams where
  width : ℕ
  height : ℕ
  mimeType : String
  quality : ℚ
  fill : Option String
deriving DecidableEq, Repr

/-- The blob produced by a successful conversion. -/
structure Blob where
  width : ℕ
  height : ℕ
  mimeType : String
  size : ℕ
deriving DecidableEq, Repr

/-- Abstract canvas encoder: the byte size `canvas.toBlob` produces for a given
canvas state, or `none` when `toBlob` yields `null`. -/
def Encoder : Type := EncodeParams → Option ℕ

/-- The option object of `ImageConverter.convertFormat`
(`{ quality, maxWidth, maxHeight, backgroundColor }`; `none` models `null`). -/
structure ConvertOptions where
  quality : ℚ
  maxWidth : Option ℚ
  maxHeight : Option ℚ
  backgroundColor : Option String
deriving DecidableEq, Repr

/-- The WebIDL unsigned-long coercion performed by assigning to
`canvas.width` / `canvas.height`: truncate toward zero, reduce mod 2^32.
For the nonnegative values arising here truncation is the floor. -/
def canvasDim (q : ℚ) : ℕ := (⌊q⌋).toNat % 2 ^ 32

/-- First clamping pass of `convertFormat` (source lines
`if (maxWidth && width > maxWidth) { height = (height * maxWidth) / width;
width = maxWidth; }`).  JavaScript truthiness makes `maxWidth = 0` act as
unset, hence the `mw ≠ 0` conjunct. -/
def clampWidth (maxWidth : Option ℚ) (wh : ℚ × ℚ) : ℚ × ℚ :=
  match maxWidth with
  | some mw => if mw ≠ 0 ∧ mw < wh.1 then (mw, wh.2 * mw / wh.1) else wh
  | none => wh

/-- Second clamping pass of `convertFormat` (source lines
`if (maxHeight && height > maxHeight) { width = (width * maxHeight) / height;
height = maxHeight; }`). -/
def clampHeight (maxHeight : Option ℚ) (wh : ℚ × ℚ) : ℚ × ℚ :=
  match maxHeight with
  | some mh => if mh ≠ 0 ∧ mh < wh.2 then (wh.1 * mh / wh.2, mh) else wh
  | none => wh

/-- The dimension computation of `convertFormat`: the width pass followed by
the height pass, exactly as the two sequential `if` statements in the source. -/
def computeDims (maxWidth maxHeight : Option ℚ) (w h : ℚ) : ℚ × ℚ :=
  clampHeight maxHeight (clampWidth maxWidth (w, h))

/-- The background fill `convertFormat` performs: the whole surface is filled
with `backgroundColor` exactly when it is set and the output format is
`jpeg` or `jpg` (source: `if (backgroundColor && (outputFormat === 'jpeg' ||
outputFormat === 'jpg')) { ctx.fillStyle = backgroundColor;
ctx.fillRect(0, 0, width, height); }`). -/
def backgroundFill (backgroundColor : Option String) (outputFormat : String) :
    Option String :=
  match backgroundColor with
  | some c =>
      if outputFormat = "jpeg" ∨ outputFormat = "jpg" then some c else none
  | none => none

/-- The canvas state `convertFormat` builds for a decoded image before calling
`canvas.toBlob` : target dimensions, MIME string `"image/" ++ outputFormat`,
the request's quality, and the background fill. -/
def encodeParamsFor (img : DecodedImage) (outputFormat : String)
    (opts : ConvertOptions) : EncodeParams :=
  let dims := computeDims opts.maxWidth opts.maxHeight img.width img.height
  { width := canvasDim dims.1
    height := canvasDim dims.2
    mimeType := "image/" ++ outputFormat
    quality := opts.quality
    fill := backgroundFill opts.backgroundColor outputFormat }

/-- `ImageConverter.convertFormat(file, outputFormat, options)`: reject with
"圖片載入失敗" when the image does not decode; otherwise compute the target
dimensions, set the canvas, optionally fill the background, draw, and call
`toBlob`; a `null` blob rejects with "格式轉換失敗". -/
def convertFormat (enc : Encoder) (file : InputFile) (outputFormat : String)
    (opts : ConvertOptions) : Except String Blob :=
  match file.decoded with
  | none => .error "圖片載入失敗"
  | some img =>
    let p := encodeParamsFor img outputFormat opts
    match enc p with
    | some size =>
        .ok { width := p.width, height := p.height,
              mimeType := p.mimeType, size := size }
    | none => .error "格式轉換失敗"

/-- One entry of the array `ImageConverter.batchProcess` returns:
`{ success: true, result, file }` or `{ success: false, error, file }`. -/
inductive BatchResult where
  | success (result : Blob) (file : InputFile)
  | failure (error : String) (file : InputFile)
deriving DecidableEq, Repr

/-- One invocation of the `onProgress` callback: its three arguments
`(i + 1, total, label)`. -/
structure ProgressCall where
  completed : ℕ
  total : ℕ
  label : String
deriving DecidableEq, Repr

/-- The loop body of `batchProcess` for item `i`: on a fulfilled
`processFunction` push `{success: true, result, file}` and report
`(i+1, total, file.name)`; on a rejection push `{success: false, error, file}`
and report `(i+1, total, "錯誤: " ++ file.name)`. -/
def batchStep (process : InputFile → ℕ → Except String Blob) (total : ℕ)
    (f : InputFile) (i : ℕ) : BatchResult × ProgressCall :=
  match process f i with
  | .ok r => (.success r f, ⟨i + 1, total, f.name⟩)
  | .error e => (.failure e f, ⟨i + 1, total, "錯誤: " ++ f.name⟩)

/-- The `for` loop of `batchProcess`, started at index `i`: collects the
results array and, in order, the progress calls made (the calls are emitted
only when an `onProgress` callback was supplied; the list records them). -/
def batchGo (process : InputFile → ℕ → Except String Blob) (total : ℕ) :
    ℕ → List InputFile → List BatchResult × List ProgressCall
  | _, [] => ([], [])
  | i, f :: rest =>
    let s := batchStep process total f i
    let r := batchGo process total (i + 1) rest
    (s.1 :: r.1, s.2 :: r.2)

/-- `ImageConverter.batchProcess(files, processFunction, onProgress)`:
sequentially process every file, never aborting on a failure; returns the
results array together with the ordered list of `onProgress` invocations. -/
def batchProcess (files : List InputFile)
    (process : InputFile → ℕ → Except String Blob) :
    List BatchResult × List ProgressCall :=
  batchGo process files.length 0 files

/-- The option object `{ quality }` that `compressImage` passes to
`convertFormat` (all other options default to `null`). -/
def qualityOnly (q : ℚ) : ConvertOptions :=
  { quality := q, maxWidth := none, maxHeight := none, backgroundColor := none }

/-- The `while` loop of `ImageConverter.compressImage`, with
`fuel = maxIterations - iteration` and current quality `q`.  Returns the list
of qualities at which `convertFormat` is awaited (in order) and the final
result.  When the loop guard fails (`fuel = 0`) or quality would drop to
`≤ 0.1`, one final conversion at quality `0.1` is performed and returned;
a rejection of `convertFormat` propagates. -/
def compressGo (enc : Encoder) (file : InputFile) (target : ℚ) :
    ℕ → ℚ → List ℚ × Except String Blob
  | 0, _ => ([1/10], convertFormat enc file "jpeg" (qualityOnly (1/10)))
  | fuel + 1, q =>
    match convertFormat enc file "jpeg" (qualityOnly q) with
    | .error e => ([q], .error e)
    | .ok c =>
      if (c.size : ℚ) ≤ target then ([q], .ok c)
      else
        let q' := q - 1/10
        if q' ≤ 1/10 then
          ([q, 1/10], convertFormat enc file "jpeg" (qualityOnly (1/10)))
        else
          let r := compressGo enc file target fuel q'
          (q :: r.1, r.2)

/-- `ImageConverter.compressImage(file, targetSizeKB, maxIterations = 10)`:
start at quality `0.8`, return the first conversion whose size is at most
`targetSizeKB * 1024` bytes, otherwise lower the quality by `0.1` and retry;
best-effort final conversion at quality `0.1`. -/
def compressImage (enc : Encoder) (file : InputFile) (targetSizeKB : ℚ)
    (maxIterations : ℕ) : Except String Blob :=
  (compressGo enc file (targetSizeKB * 1024) maxIterations (8/10)).2

/-- The qualities at which `compressImage` awaits `convertFormat`, in order. -/
def compressAttempts (enc : Encoder) (file : InputFile) (targetSizeKB : ℚ)
    (maxIterations : ℕ) : List ℚ :=
  (compressGo enc file (targetSizeKB * 1024) maxIterations (8/10)).1

/-! ### Definitions following the spec's words (for refinement claims) -/

/-- Target-dimension computation as the spec words it: "if `maxWidth` is set
and natural width exceeds it, scale both dimensions down preserving aspect
ratio so width == maxWidth; then, independently, if `maxHeight` is set and the
(possibly already-scaled) height exceeds it, scale both dimensions down again
preserving aspect ratio so height == maxHeight". -/
def specTargetDims (maxWidth maxHeight : Option ℚ) (w h : ℚ) : ℚ × ℚ :=
  let p1 :=
    match maxWidth with
    | some mw => if mw < w then (mw, h * (mw / w)) else (w, h)
    | none => (w, h)
  match maxHeight with
  | some mh => if mh < p1.2 then (p1.1 * (mh / p1.2), mh) else p1
  | none => p1

/-- The in-loop quality ladder the spec describes for the size-targeting
compressor: initial quality `0.8`, lowered by `0.1` per iteration, stopping
before it would reach `≤ 0.1`. -/
def specQualities : List ℚ := [8/10, 7/10, 6/10, 5/10, 4/10, 3/10, 2/10]

/-- The size-targeting compressor as the spec words it: try the qualities of
`specQualities` in order, returning the first conversion whose size meets the
target immediately; if none does, perform one final conversion at quality
`0.1` and return it regardless.  The attempted qualities are recorded as in
`compressGo`; a conversion rejection propagates. -/
def specCompressGo (enc : Encoder) (file : InputFile) (target : ℚ) :
    List ℚ → List ℚ × Except String Blob
  | [] => ([1/10], convertFormat enc file "jpeg" (qualityOnly (1/10)))
  | q :: rest =>
    match convertFormat enc file "jpeg" (qualityOnly q) with
    | .error e => ([q], .error e)
    | .ok c =>
      if (c.size : ℚ) ≤ target then ([q], .ok c)
      else
        let r := specCompressGo enc file target rest
        (q :: r.1, r.2)

/-- The closed set of supported output encodings
(`supportedFormats.output = ['jpeg', 'png', 'webp']`). -/
inductive OutputEncoding where
  | jpeg
  | png
  | webp
deriving DecidableEq, Repr

/-- The format string under which `convertFormat` is invoked for an output
encoding. -/
def OutputEncoding.toFormatString : OutputEncoding → String
  | .jpeg => "jpeg"
  | .png => "png"
  | .webp => "webp"

/-- Whether an output encoding can represent an alpha channel: JPEG cannot;
PNG and WebP can. -/
def OutputEncoding.canRepresentAlpha : OutputEncoding → Bool
  | .jpeg => false
  | .png => true
  | .webp => true

/-- The spec's quality-ladder invariant: each listed quality is the previous
one lowered by 0.1 and still above the 0.1 stopping threshold, and the last
one would drop to ≤ 0.1 on the next decrement. -/
def qualityLadder : ℚ → List ℚ → Prop
  | q, [] => q - 1/10 ≤ 1/10
  | q, q' :: rest => q' = q - 1/10 ∧ 1/10 < q' ∧ qualityLadder q' rest

/-! ### Concrete fixtures used by witnesses and counterexamples -/

/-- A sample abstract encoder: the blob size is a simple function of the
canvas dimensions. -/
def sampleEncoder : Encoder := fun p => some (p.width + p.height + 1000)

/-- An encoder whose blobs are always 999999 bytes: no small byte target is
ever met. -/
def hugeEncoder : Encoder := fun _ => some 999999

/-- A decodable 4000×3000 JPEG input. -/
def jpegAsset : InputFile := ⟨"photo.jpg", "image/jpeg", 100, some ⟨4000, 3000⟩⟩

/-- A decodable 4×6 PNG input. -/
def smallAsset : InputFile := ⟨"tiny.png", "image/png", 50, some ⟨4, 6⟩⟩

/-- An input whose bytes do not decode as a raster image. -/
def corruptAsset : InputFile := ⟨"broken.png", "image/png", 7, none⟩

/-- A per-item process function for batch fixtures: convert to PNG at the
default options. -/
def pngProcess : InputFile → ℕ → Except String Blob := fun f _ =>
  convertFormat sampleEncoder f "png" ⟨8/10, none, none, none⟩

/-! ### Helper lemmas about the batch loop -/

theorem batchGo_lengths (process : InputFile → ℕ → Except String Blob)
    (total : ℕ) : ∀ (files : List InputFile) (i : ℕ),
    (batchGo process total i files).1.length = files.length ∧
    (batchGo process total i files).2.length = files.length := by
  intro files
  induction files with
  | nil => intro i; exact ⟨rfl, rfl⟩
  | cons a rest ih =>
    intro i
    have h := ih (i + 1)
    simp [batchGo, h.1, h.2]

theorem batchGo_fst_get (process : InputFile → ℕ → Except String Blob)
    (total : ℕ) : ∀ (files : List InputFile) (i k : ℕ) (f : InputFile),
    files[k]? = some f →
    (batchGo process total i files).1[k]? =
      some (batchStep process total f (i + k)).1 := by
  intro files
  induction files with
  | nil => intro i k f h; simp at h
  | cons a rest ih =>
    intro i k f h
    cases k with
    | zero =>
      simp only [List.getElem?_cons_zero, Option.some.injEq] at h
      subst h
      simp [batchGo]
    | succ k =>
      simp only [List.getElem?_cons_succ] at h
      have hr := ih (i + 1) k f h
      have e : i + 1 + k = i + (k + 1) := by omega
      rw [e] at hr
      simpa [batchGo] using hr

theorem batchGo_snd_get (process : InputFile → ℕ → Except String Blob)
    (total : ℕ) : ∀ (files : List InputFile) (i k : ℕ) (f : InputFile),
    files[k]? = some f →
    (batchGo process total i files).2[k]? =
      some (batchStep process total f (i + k)).2 := by
  intro files
  induction files with
  | nil => intro i k f h; simp at h
  | cons a rest ih =>
    intro i k f h
    cases k with
    | zero =>
      simp only [List.getElem?_cons_zero, Option.some.injEq] at h
      subst h
      simp [batchGo]
    | succ k =>
      simp only [List.getElem?_cons_succ] at h
      have hr := ih (i + 1) k f h
      have e : i + 1 + k = i + (k + 1) := by omega
      rw [e] at hr
      simpa [batchGo] using hr

/-! ### Claim theorems: batch runner -/

/-- C1: `batchProcess` returns exactly one outcome per input, in input order
(`outcomes[i]` corresponds to `inputs[i]`): the outcome at position `i` is the
success/failure result of processing `inputs[i]` alone, so one failing input
neither drops, reorders, nor prevents the processing of any other input. -/
theorem batchProcess_one_outcome_per_input (files : List InputFile)
    (process : InputFile → ℕ → Except String Blob) :
    (batchProcess files process).1.length = files.length ∧
    (∀ (i : ℕ) (f : InputFile), files[i]? = some f →
      (batchProcess files process).1[i]? =
        some (match process f i with
          | .ok r => BatchResult.success r f
          | .error e => BatchResult.failure e f)) := by
  constructor
  · exact (batchGo_lengths process files.length files 0).1
  · intro i f h
    have hr := batchGo_fst_get process files.length files 0 i f h
    rw [Nat.zero_add] at hr
    unfold batchProcess
    rw [hr]
    cases hp : process f i <;> simp [batchStep, hp]

/-- Witness for C1: in the batch `[good, corrupt, good]` the outcome at
position 1 is the `Failure` for the corrupt asset (the spec's
`[Success, Failure, Success]` scenario at its middle position). -/
theorem batchProcess_one_outcome_per_input_witness :
    (batchProcess [jpegAsset, corruptAsset, smallAsset] pngProcess).1[1]? =
      some (BatchResult.failure "圖片載入失敗" corruptAsset) := by
  have h := (batchProcess_one_outcome_per_input
      [jpegAsset, corruptAsset, smallAsset] pngProcess).2 1 corruptAsset rfl
  simpa [pngProcess, convertFormat, corruptAsset] using h

/-- C5 counterexample: with a single undecodable input, the progress callback's
third argument is `"錯誤: broken.png"`, not the input's name `"broken.png"` as
the claim states. -/
theorem batchProcess_progress_label_on_failure :
    (batchProcess [corruptAsset] pngProcess).2 =
      [⟨1, 1, "錯誤: broken.png"⟩] ∧
    ("錯誤: broken.png" : String) ≠ "broken.png" := by
  constructor
  · rfl
  · decide

/-- C5 (amended): for every batch of N inputs, the progress callback is
invoked exactly N times, once after each input (success or failure), with
first argument `i+1` (strictly increasing from 1 to N), second argument N,
and third argument `inputs[i].name` when item `i` succeeded and
`"錯誤: " ++ inputs[i].name` when it failed. -/
theorem batchProcess_progress_calls (files : List InputFile)
    (process : InputFile → ℕ → Except String Blob) :
    (batchProcess files process).2.length = files.length ∧
    (∀ (i : ℕ) (f : InputFile), files[i]? = some f →
      (batchProcess files process).2[i]? =
        some ⟨i + 1, files.length,
          match process f i with
          | .ok _ => f.name
          | .error _ => "錯誤: " ++ f.name⟩) := by
  constructor
  · exact (batchGo_lengths process files.length files 0).2
  · intro i f h
    have hr := batchGo_snd_get process files.length files 0 i f h
    rw [Nat.zero_add] at hr
    unfold batchProcess
    rw [hr]
    cases hp : process f i <;> simp [batchStep, hp]

/-- Witness for C5 (amended): in the batch `[good, corrupt, good]` the second
progress call is `(2, 3, "錯誤: broken.png")`. -/
theorem batchProcess_progress_calls_witness :
    (batchProcess [jpegAsset, corruptAsset, smallAsset] pngProcess).2[1]? =
      some ⟨2, 3, "錯誤: broken.png"⟩ := by
  have h := (batchProcess_progress_calls
      [jpegAsset, corruptAsset, smallAsset] pngProcess).2 1 corruptAsset rfl
  simpa [pngProcess, convertFormat, corruptAsset] using h

/-! ### Claim theorems: request validation (quality factor) -/

/-- C2 counterexample: at quality 2 ∉ [0,1], `convertFormat` does not reject
the request — it decodes the 4×6 asset and returns a `Success` blob, so no
`Failure{reason: InvalidRequest}` is produced and the decode is performed. -/
theorem convertFormat_accepts_out_of_range_quality :
    ((2 : ℚ) < 0 ∨ 1 < (2 : ℚ)) ∧
    convertFormat sampleEncoder smallAsset "png"
      ⟨2, none, none, none⟩ = .ok ⟨4, 6, "image/png", 1010⟩ := by
  constructor
  · norm_num
  · rfl

/-- C2 (amended): `convertFormat` performs no validation of the quality
factor.  For every request whose quality lies outside [0,1] and every asset
that decodes, the conversion proceeds exactly as for an in-range quality: the
asset is decoded, the canvas state is built, and the out-of-range quality is
passed unchanged to the encoder; no `InvalidRequest` failure exists. -/
theorem convertFormat_no_quality_validation (enc : Encoder) (file : InputFile)
    (fmt : String) (opts : ConvertOptions)
    (_hq : opts.quality < 0 ∨ 1 < opts.quality)
    (img : DecodedImage) (hdec : file.decoded = some img) :
    (encodeParamsFor img fmt opts).quality = opts.quality ∧
    convertFormat enc file fmt opts =
      (match enc (encodeParamsFor img fmt opts) with
       | some size =>
           .ok ⟨(encodeParamsFor img fmt opts).width,
                (encodeParamsFor img fmt opts).height,
                (encodeParamsFor img fmt opts).mimeType, size⟩
       | none => .error "格式轉換失敗") := by
  refine ⟨rfl, ?_⟩
  unfold convertFormat
  rw [hdec]

/-- Witness for C2 (amended), at quality 2 on the decodable 4×6 asset. -/
theorem convertFormat_no_quality_validation_witness :
    (encodeParamsFor ⟨4, 6⟩ "png" ⟨2, none, none, none⟩).quality = 2 ∧
    convertFormat sampleEncoder smallAsset "png" ⟨2, none, none, none⟩ =
      (match sampleEncoder (encodeParamsFor ⟨4, 6⟩ "png" ⟨2, none, none, none⟩) with
       | some size =>
           .ok ⟨(encodeParamsFor ⟨4, 6⟩ "png" ⟨2, none, none, none⟩).width,
                (encodeParamsFor ⟨4, 6⟩ "png" ⟨2, none, none, none⟩).height,
                (encodeParamsFor ⟨4, 6⟩ "png" ⟨2, none, none, none⟩).mimeType, size⟩
       | none => .error "格式轉換失敗") :=
  convertFormat_no_quality_validation sampleEncoder smallAsset "png"
    ⟨2, none, none, none⟩ (Or.inr (by norm_num)) ⟨4, 6⟩ rfl

/-! ### Claim theorems: dimension computation -/

/-- Evaluation rule for the canvas dimension coercion on a bounded
nonnegative rational. -/
theorem canvasDim_eval (q : ℚ) (n : ℕ) (h1 : (n : ℚ) ≤ q) (h2 : q < n + 1)
    (h32 : n < 2 ^ 32) : canvasDim q = n := by
  have hf : ⌊q⌋ = (n : ℤ) := by
    rw [Int.floor_eq_iff]
    constructor
    · exact_mod_cast h1
    · push_cast
      exact h2
  unfold canvasDim
  rw [hf, Int.toNat_natCast, Nat.mod_eq_of_lt h32]

/-- A successful conversion returns the blob built from the canvas state. -/
theorem convertFormat_ok (enc : Encoder) (file : InputFile) (fmt : String)
    (opts : ConvertOptions) (img : DecodedImage) (s : ℕ)
    (hdec : file.decoded = some img)
    (henc : enc (encodeParamsFor img fmt opts) = some s) :
    convertFormat enc file fmt opts =
      .ok ⟨(encodeParamsFor img fmt opts).width,
           (encodeParamsFor img fmt opts).height,
           (encodeParamsFor img fmt opts).mimeType, s⟩ := by
  unfold convertFormat
  rw [hdec]
  dsimp only
  rw [henc]

theorem clampWidth_some_eq (mw w h : ℚ) (hx : mw ≠ 0) :
    clampWidth (some mw) (w, h) = if mw < w then (mw, h * (mw / w)) else (w, h) := by
  simp [clampWidth, hx, mul_div_assoc]

theorem clampHeight_some_eq (mh : ℚ) (wh : ℚ × ℚ) (hy : mh ≠ 0) :
    clampHeight (some mh) wh =
      if mh < wh.2 then (wh.1 * (mh / wh.2), mh) else wh := by
  simp [clampHeight, hy, mul_div_assoc]

/-- C3: the dimension computation of `convertFormat` is exactly the spec's two
sequential independent passes (width clamp first, then height clamp on the
possibly-already-scaled height), given the data-model invariant that the
optional maxima are positive when set. -/
theorem computeDims_eq_specTargetDims (maxWidth maxHeight : Option ℚ)
    (w h : ℚ) (hmw : ∀ x ∈ maxWidth, 0 < x) (hmh : ∀ y ∈ maxHeight, 0 < y) :
    computeDims maxWidth maxHeight w h = specTargetDims maxWidth maxHeight w h := by
  unfold computeDims specTargetDims
  cases maxWidth with
  | none =>
    cases maxHeight with
    | none => rfl
    | some mh =>
      have hy : (0 : ℚ) < mh := hmh mh rfl
      rw [clampHeight_some_eq mh _ hy.ne']
      simp [clampWidth]
  | some mw =>
    have hx : (0 : ℚ) < mw := hmw mw rfl
    cases maxHeight with
    | none =>
      rw [clampWidth_some_eq mw w h hx.ne']
      rfl
    | some mh =>
      have hy : (0 : ℚ) < mh := hmh mh rfl
      rw [clampWidth_some_eq mw w h hx.ne', clampHeight_some_eq mh _ hy.ne']

/-- Witness for C3 at the spec's scenario: 4000×3000 with maxWidth 800. -/
theorem computeDims_eq_specTargetDims_witness :
    computeDims (some 800) none 4000 3000 = specTargetDims (some 800) none 4000 3000 :=
  computeDims_eq_specTargetDims (some 800) none 4000 3000
    (by intro x hx; cases hx; norm_num) (by intro y hy; cases hy)

/-- C4 counterexample: a 4×6 image converted with maxWidth 3 gets scaled
height 6·3/4 = 4.5; the canvas truncates it to 4, whereas the claim's
`round(inputHeight × W / inputWidth)` is 5. -/
theorem convertFormat_truncates_height :
    convertFormat sampleEncoder smallAsset "png"
      ⟨8/10, some 3, none, none⟩ = .ok ⟨3, 4, "image/png", 1007⟩ ∧
    round ((6 : ℚ) * 3 / 4) = 5 := by
  have hdims : computeDims (some 3) none 4 6 = ((3 : ℚ), (9 : ℚ)/2) := by
    unfold computeDims
    rw [clampWidth_some_eq 3 4 6 (by norm_num), if_pos (by norm_num : (3 : ℚ) < 4)]
    simp only [clampHeight, Prod.ext_iff]
    norm_num
  have hcw : canvasDim 3 = 3 :=
    canvasDim_eval 3 3 (by norm_num) (by norm_num) (by norm_num)
  have hch : canvasDim ((9 : ℚ)/2) = 4 :=
    canvasDim_eval ((9 : ℚ)/2) 4 (by norm_num) (by norm_num) (by norm_num)
  have hp : encodeParamsFor ⟨4, 6⟩ "png" ⟨8/10, some 3, none, none⟩ =
      ⟨3, 4, "image/png", 8/10, none⟩ := by
    simp [encodeParamsFor, backgroundFill, hdims, hcw, hch]
  constructor
  · have hmain := convertFormat_ok sampleEncoder smallAsset "png"
        ⟨8/10, some 3, none, none⟩ ⟨4, 6⟩ 1007 rfl (by rw [hp]; rfl)
    rw [hmain, hp]
  · norm_num [round_eq]

/-- C4 (amended): with `maxWidth = W` set, `maxHeight` unset and input width
`w > W`, the output has width exactly `W` and height exactly
`⌊inputHeight × W / inputWidth⌋` — the scaled height is truncated by the
canvas dimension coercion, not rounded to nearest. -/
theorem convertFormat_maxWidth_dims (enc : Encoder) (file : InputFile)
    (fmt : String) (q : ℚ) (w h W s : ℕ)
    (hdec : file.decoded = some ⟨(w : ℚ), (h : ℚ)⟩)
    (hW : 0 < W) (hlt : W < w)
    (hW32 : W < 2 ^ 32) (hh32 : h * W / w < 2 ^ 32)
    (henc : enc (encodeParamsFor ⟨(w : ℚ), (h : ℚ)⟩ fmt
      ⟨q, some (W : ℚ), none, none⟩) = some s) :
    convertFormat enc file fmt ⟨q, some (W : ℚ), none, none⟩ =
      .ok ⟨W, h * W / w, "image/" ++ fmt, s⟩ := by
  have hWQ : (0 : ℚ) < (W : ℚ) := by exact_mod_cast hW
  have hltQ : (W : ℚ) < (w : ℚ) := by exact_mod_cast hlt
  have hdims : computeDims (some (W : ℚ)) none (w : ℚ) (h : ℚ) =
      ((W : ℚ), (h : ℚ) * (W : ℚ) / (w : ℚ)) := by
    simp [computeDims, clampWidth, clampHeight, hWQ.ne', hltQ]
  have hcw : canvasDim (W : ℚ) = W := by
    unfold canvasDim
    rw [Int.floor_natCast, Int.toNat_natCast, Nat.mod_eq_of_lt hW32]
  have hch : canvasDim ((h : ℚ) * (W : ℚ) / (w : ℚ)) = h * W / w := by
    have hcast : (h : ℚ) * (W : ℚ) / (w : ℚ) = ((h * W : ℕ) : ℚ) / ((w : ℕ) : ℚ) := by
      push_cast
      ring
    unfold canvasDim
    rw [hcast, Int.floor_toNat, Nat.floor_div_nat, Nat.floor_natCast,
      Nat.mod_eq_of_lt hh32]
  have hp : encodeParamsFor ⟨(w : ℚ), (h : ℚ)⟩ fmt ⟨q, some (W : ℚ), none, none⟩ =
      ⟨W, h * W / w, "image/" ++ fmt, q, none⟩ := by
    simp [encodeParamsFor, backgroundFill, hdims, hcw, hch]
  have hmain := convertFormat_ok enc file fmt ⟨q, some (W : ℚ), none, none⟩
      ⟨(w : ℚ), (h : ℚ)⟩ s hdec henc
  rw [hp] at hmain
  exact hmain

/-- Witness for C4 (amended) at the spec's scenario: 4000×3000, maxWidth 800
gives an 800×600 output (3000·800/4000 = 600 exactly). -/
theorem convertFormat_maxWidth_dims_witness :
    (convertFormat sampleEncoder jpegAsset "png"
      ⟨8/10, some ((800 : ℕ) : ℚ), none, none⟩ =
      .ok ⟨800, 3000 * 800 / 4000, "image/" ++ "png", 2400⟩) ∧
    (3000 * 800 / 4000 : ℕ) = 600 := by
  refine ⟨?_, by norm_num⟩
  have h1 : canvasDim ((800 : ℚ)) = 800 :=
    canvasDim_eval _ 800 (by norm_num) (by norm_num) (by norm_num)
  have h2 : canvasDim ((600 : ℚ)) = 600 :=
    canvasDim_eval _ 600 (by norm_num) (by norm_num) (by norm_num)
  have hp : encodeParamsFor ⟨((4000 : ℕ) : ℚ), ((3000 : ℕ) : ℚ)⟩ "png"
      ⟨8/10, some ((800 : ℕ) : ℚ), none, none⟩ =
      ⟨800, 600, "image/png", 8/10, none⟩ := by
    norm_num [encodeParamsFor, computeDims, clampWidth, clampHeight,
      backgroundFill, h1, h2]
    rfl
  exact convertFormat_maxWidth_dims sampleEncoder jpegAsset "png" (8/10)
    4000 3000 800 2400 (by norm_num [jpegAsset]) (by norm_num) (by norm_num)
    (by norm_num) (by norm_num) (by rw [hp]; rfl)

/-! ### Claim theorems: background fill -/

/-- C8: when a background color is requested, `convertFormat` fills the whole
target surface with it exactly for output encodings that cannot represent an
alpha channel (jpeg), and performs no fill for alpha-capable encodings
(png, webp). -/
theorem backgroundFill_iff_cannot_represent_alpha (e : OutputEncoding)
    (img : DecodedImage) (opts : ConvertOptions) (c : String)
    (hbg : opts.backgroundColor = some c) :
    (encodeParamsFor img e.toFormatString opts).fill =
      (if e.canRepresentAlpha then none else some c) := by
  cases e <;>
    simp [encodeParamsFor, backgroundFill, hbg, OutputEncoding.toFormatString,
      OutputEncoding.canRepresentAlpha]

/-- Witness for C8: converting to jpeg with background `"#ffffff"` fills the
surface with that color. -/
theorem backgroundFill_iff_cannot_represent_alpha_witness :
    (encodeParamsFor ⟨4, 6⟩ OutputEncoding.jpeg.toFormatString
        ⟨1/2, none, none, some "#ffffff"⟩).fill =
      (if OutputEncoding.jpeg.canRepresentAlpha then none else some "#ffffff") :=
  backgroundFill_iff_cannot_represent_alpha OutputEncoding.jpeg ⟨4, 6⟩
    ⟨1/2, none, none, some "#ffffff"⟩ "#ffffff" rfl

/-! ### Helper lemmas: clamp bounds and idempotence -/

theorem clampWidth_pos (mw : Option ℚ) (wh : ℚ × ℚ) (hw : 0 < wh.1)
    (hh : 0 < wh.2) (hmw : ∀ x ∈ mw, 0 < x) :
    0 < (clampWidth mw wh).1 ∧ 0 < (clampWidth mw wh).2 := by
  cases mw with
  | none => exact ⟨hw, hh⟩
  | some x =>
    have hx : (0 : ℚ) < x := hmw x rfl
    unfold clampWidth
    dsimp only
    split_ifs with hc
    · exact ⟨hx, div_pos (mul_pos hh hx) hw⟩
    · exact ⟨hw, hh⟩

theorem clampHeight_pos (mh : Option ℚ) (wh : ℚ × ℚ) (hw : 0 < wh.1)
    (hh : 0 < wh.2) (hmh : ∀ y ∈ mh, 0 < y) :
    0 < (clampHeight mh wh).1 ∧ 0 < (clampHeight mh wh).2 := by
  cases mh with
  | none => exact ⟨hw, hh⟩
  | some y =>
    have hy : (0 : ℚ) < y := hmh y rfl
    unfold clampHeight
    dsimp only
    split_ifs with hc
    · exact ⟨div_pos (mul_pos hw hy) hh, hy⟩
    · exact ⟨hw, hh⟩

theorem clampWidth_fst_le (x : ℚ) (wh : ℚ × ℚ) (hx : x ≠ 0) :
    (clampWidth (some x) wh).1 ≤ x := by
  unfold clampWidth
  dsimp only
  split_ifs with hc
  · exact le_refl x
  · push_neg at hc
    exact hc hx

theorem clampHeight_snd_le (y : ℚ) (wh : ℚ × ℚ) (hy : y ≠ 0) :
    (clampHeight (some y) wh).2 ≤ y := by
  unfold clampHeight
  dsimp only
  split_ifs with hc
  · exact le_refl y
  · push_neg at hc
    exact hc hy

theorem clampHeight_fst_le (mh : Option ℚ) (wh : ℚ × ℚ) (hw : 0 < wh.1)
    (hh : 0 < wh.2) (hmh : ∀ y ∈ mh, 0 < y) :
    (clampHeight mh wh).1 ≤ wh.1 := by
  cases mh with
  | none => exact le_refl _
  | some y =>
    unfold clampHeight
    dsimp only
    split_ifs with hc
    · have h1 : y / wh.2 ≤ 1 := (div_le_one hh).mpr hc.2.le
      calc wh.1 * y / wh.2 = wh.1 * (y / wh.2) := mul_div_assoc _ _ _
        _ ≤ wh.1 * 1 := mul_le_mul_of_nonneg_left h1 hw.le
        _ = wh.1 := mul_one _
    · exact le_refl _

theorem computeDims_fst_le (x : ℚ) (mh : Option ℚ) (w h : ℚ)
    (hx : 0 < x) (hw : 0 < w) (hh : 0 < h) (hmh : ∀ y ∈ mh, 0 < y) :
    (computeDims (some x) mh w h).1 ≤ x := by
  have hp := clampWidth_pos (some x) (w, h) hw hh (by
    intro z hz
    cases hz
    exact hx)
  calc (computeDims (some x) mh w h).1
      ≤ (clampWidth (some x) (w, h)).1 :=
        clampHeight_fst_le mh _ hp.1 hp.2 hmh
    _ ≤ x := clampWidth_fst_le x _ hx.ne'

theorem computeDims_snd_le (mw : Option ℚ) (y : ℚ) (w h : ℚ)
    (hy : 0 < y) : (computeDims mw (some y) w h).2 ≤ y :=
  clampHeight_snd_le y _ hy.ne'

theorem clampWidth_no_op (mw : Option ℚ) (wh : ℚ × ℚ)
    (hle : ∀ x ∈ mw, wh.1 ≤ x) : clampWidth mw wh = wh := by
  cases mw with
  | none => rfl
  | some x =>
    unfold clampWidth
    dsimp only
    rw [if_neg]
    intro hc
    exact absurd (hle x rfl) (not_le.mpr hc.2)

theorem clampHeight_no_op (mh : Option ℚ) (wh : ℚ × ℚ)
    (hle : ∀ y ∈ mh, wh.2 ≤ y) : clampHeight mh wh = wh := by
  cases mh with
  | none => rfl
  | some y =>
    unfold clampHeight
    dsimp only
    rw [if_neg]
    intro hc
    exact absurd (hle y rfl) (not_le.mpr hc.2)

/-- The canvas coercion of a value known to lie under a nonnegative bound
stays under the bound. -/
theorem canvasDim_cast_le (q x : ℚ) (hx : 0 ≤ x) (hq : q ≤ x) :
    ((canvasDim q : ℕ) : ℚ) ≤ x := by
  have h1 : canvasDim q ≤ (⌊q⌋).toNat := Nat.mod_le _ _
  rcases le_or_lt 0 ⌊q⌋ with h0 | h0
  · have h2 : ((⌊q⌋.toNat : ℕ) : ℚ) ≤ q := by
      have h4 : ((⌊q⌋.toNat : ℕ) : ℤ) = ⌊q⌋ := Int.toNat_of_nonneg h0
      have h5 : ((⌊q⌋.toNat : ℕ) : ℚ) = ((⌊q⌋ : ℤ) : ℚ) := by exact_mod_cast h4
      rw [h5]
      exact_mod_cast Int.floor_le q
    calc ((canvasDim q : ℕ) : ℚ) ≤ ((⌊q⌋.toNat : ℕ) : ℚ) := by exact_mod_cast h1
      _ ≤ q := h2
      _ ≤ x := hq
  · have h2 : ⌊q⌋.toNat = 0 := Int.toNat_of_nonpos h0.le
    have h3 : canvasDim q = 0 := Nat.le_zero.mp (h2 ▸ h1)
    rw [h3]
    exact_mod_cast hx

theorem canvasDim_lt_2_pow_32 (q : ℚ) : canvasDim q < 2 ^ 32 :=
  Nat.mod_lt _ (by norm_num)

theorem canvasDim_natCast (n : ℕ) (hn : n < 2 ^ 32) : canvasDim (n : ℚ) = n := by
  unfold canvasDim
  rw [Int.floor_natCast, Int.toNat_natCast, Nat.mod_eq_of_lt hn]

/-! ### Claim theorems: dimension idempotence -/

/-- C9: converting an already-converted asset again with the same target
encoding and the same maxWidth/maxHeight constraints does not change its
dimensions a second time — the dimensions produced by the first conversion
are a fixed point of the dimension-computation step. -/
theorem encodeParamsFor_dims_idempotent (img : DecodedImage) (fmt : String)
    (opts : ConvertOptions) (hw : 0 < img.width) (hh : 0 < img.height)
    (hmw : ∀ x ∈ opts.maxWidth, 0 < x) (hmh : ∀ y ∈ opts.maxHeight, 0 < y) :
    (encodeParamsFor ⟨((encodeParamsFor img fmt opts).width : ℚ),
                     ((encodeParamsFor img fmt opts).height : ℚ)⟩ fmt opts).width =
      (encodeParamsFor img fmt opts).width ∧
    (encodeParamsFor ⟨((encodeParamsFor img fmt opts).width : ℚ),
                     ((encodeParamsFor img fmt opts).height : ℚ)⟩ fmt opts).height =
      (encodeParamsFor img fmt opts).height := by
  have hd1 := clampWidth_pos opts.maxWidth (img.width, img.height) hw hh hmw
  have hd2 := clampHeight_pos opts.maxHeight _ hd1.1 hd1.2 hmh
  set d := computeDims opts.maxWidth opts.maxHeight img.width img.height with hdd
  have hdpos : 0 < d.1 ∧ 0 < d.2 := hd2
  have hfix : computeDims opts.maxWidth opts.maxHeight
      ((canvasDim d.1 : ℕ) : ℚ) ((canvasDim d.2 : ℕ) : ℚ) =
      (((canvasDim d.1 : ℕ) : ℚ), ((canvasDim d.2 : ℕ) : ℚ)) := by
    unfold computeDims
    rw [clampWidth_no_op]
    · rw [clampHeight_no_op]
      intro y hy
      have hy0 : (0 : ℚ) < y := hmh y hy
      have hley : d.2 ≤ y := by
        rw [hdd, Option.mem_def.mp hy]
        exact computeDims_snd_le opts.maxWidth y img.width img.height hy0
      exact canvasDim_cast_le d.2 y hy0.le hley
    · intro x hx
      have hx0 : (0 : ℚ) < x := hmw x hx
      have hlex : d.1 ≤ x := by
        rw [hdd, Option.mem_def.mp hx]
        exact computeDims_fst_le x opts.maxHeight img.width img.height
          hx0 hw hh hmh
      exact canvasDim_cast_le d.1 x hx0.le hlex
  constructor
  · show canvasDim (computeDims opts.maxWidth opts.maxHeight
        ((canvasDim d.1 : ℕ) : ℚ) ((canvasDim d.2 : ℕ) : ℚ)).1 = canvasDim d.1
    rw [hfix]
    exact canvasDim_natCast _ (canvasDim_lt_2_pow_32 _)
  · show canvasDim (computeDims opts.maxWidth opts.maxHeight
        ((canvasDim d.1 : ℕ) : ℚ) ((canvasDim d.2 : ℕ) : ℚ)).2 = canvasDim d.2
    rw [hfix]
    exact canvasDim_natCast _ (canvasDim_lt_2_pow_32 _)

/-- Witness for C9: a 100×50 image clamped to maxWidth 30 / maxHeight 20
yields 30×15; re-running the dimension computation on 30×15 leaves it
unchanged. -/
theorem encodeParamsFor_dims_idempotent_witness :
    (encodeParamsFor ⟨((encodeParamsFor ⟨100, 50⟩ "png"
        ⟨8/10, some 30, some 20, none⟩).width : ℚ),
       ((encodeParamsFor ⟨100, 50⟩ "png"
        ⟨8/10, some 30, some 20, none⟩).height : ℚ)⟩ "png"
        ⟨8/10, some 30, some 20, none⟩).width =
      (encodeParamsFor ⟨100, 50⟩ "png" ⟨8/10, some 30, some 20, none⟩).width ∧
    (encodeParamsFor ⟨((encodeParamsFor ⟨100, 50⟩ "png"
        ⟨8/10, some 30, some 20, none⟩).width : ℚ),
       ((encodeParamsFor ⟨100, 50⟩ "png"
        ⟨8/10, some 30, some 20, none⟩).height : ℚ)⟩ "png"
        ⟨8/10, some 30, some 20, none⟩).height =
      (encodeParamsFor ⟨100, 50⟩ "png" ⟨8/10, some 30, some 20, none⟩).height :=
  encodeParamsFor_dims_idempotent ⟨100, 50⟩ "png" ⟨8/10, some 30, some 20, none⟩
    (by norm_num) (by norm_num)
    (by intro x hx; cases hx; norm_num)
    (by intro y hy; cases hy; norm_num)

/-! ### Helper lemmas about the size-targeting compression loop -/

theorem compressGo_zero (enc : Encoder) (file : InputFile) (t : ℚ) (q : ℚ) :
    compressGo enc file t 0 q =
      ([1/10], convertFormat enc file "jpeg" (qualityOnly (1/10))) := rfl

theorem compressGo_succ (enc : Encoder) (file : InputFile) (t : ℚ)
    (fuel : ℕ) (q : ℚ) :
    compressGo enc file t (fuel + 1) q =
      match convertFormat enc file "jpeg" (qualityOnly q) with
      | .error e => ([q], .error e)
      | .ok c =>
        if (c.size : ℚ) ≤ t then ([q], .ok c)
        else if q - 1/10 ≤ 1/10 then
          ([q, 1/10], convertFormat enc file "jpeg" (qualityOnly (1/10)))
        else
          (q :: (compressGo enc file t fuel (q - 1/10)).1,
           (compressGo enc file t fuel (q - 1/10)).2) := rfl

theorem specCompressGo_nil (enc : Encoder) (file : InputFile) (t : ℚ) :
    specCompressGo enc file t [] =
      ([1/10], convertFormat enc file "jpeg" (qualityOnly (1/10))) := rfl

theorem specCompressGo_cons (enc : Encoder) (file : InputFile) (t : ℚ)
    (q : ℚ) (qs : List ℚ) :
    specCompressGo enc file t (q :: qs) =
      match convertFormat enc file "jpeg" (qualityOnly q) with
      | .error e => ([q], .error e)
      | .ok c =>
        if (c.size : ℚ) ≤ t then ([q], .ok c)
        else (q :: (specCompressGo enc file t qs).1,
              (specCompressGo enc file t qs).2) := rfl

theorem convert_ok_of_isOk (enc : Encoder) (file : InputFile) (q : ℚ)
    (h : (convertFormat enc file "jpeg" (qualityOnly q)).isOk = true) :
    ∃ b, convertFormat enc file "jpeg" (qualityOnly q) = .ok b := by
  cases hc : convertFormat enc file "jpeg" (qualityOnly q) with
  | error e => rw [hc] at h; simp [Except.isOk, Except.toBool] at h
  | ok b => exact ⟨b, rfl⟩

/-- With enough fuel, the compression loop agrees with the spec's quality
ladder: try the listed qualities in order, then fall back to quality 0.1. -/
theorem compressGo_eq_spec_of_ladder (enc : Encoder) (file : InputFile)
    (t : ℚ) : ∀ (qs : List ℚ) (fuel : ℕ) (q : ℚ), qualityLadder q qs →
    qs.length + 1 ≤ fuel →
    compressGo enc file t fuel q = specCompressGo enc file t (q :: qs) := by
  intro qs
  induction qs with
  | nil =>
    intro fuel q hlad hlen
    obtain ⟨f, rfl⟩ : ∃ f, fuel = f + 1 := ⟨fuel - 1, by omega⟩
    rw [compressGo_succ, specCompressGo_cons]
    cases hc : convertFormat enc file "jpeg" (qualityOnly q) with
    | error e => rfl
    | ok c =>
      have hb : q - 1/10 ≤ 1/10 := hlad
      dsimp only
      by_cases hs : (c.size : ℚ) ≤ t
      · rw [if_pos hs, if_pos hs]
      · rw [if_neg hs, if_pos hb, if_neg hs, specCompressGo_nil]
  | cons q1 rest ih =>
    intro fuel q hlad hlen
    obtain ⟨hq1, hgt, hlad'⟩ := hlad
    subst hq1
    obtain ⟨f, rfl⟩ : ∃ f, fuel = f + 1 := ⟨fuel - 1, by omega⟩
    rw [compressGo_succ, specCompressGo_cons]
    cases hc : convertFormat enc file "jpeg" (qualityOnly q) with
    | error e => rfl
    | ok c =>
      dsimp only
      by_cases hs : (c.size : ℚ) ≤ t
      · rw [if_pos hs, if_pos hs]
      · have hnb : ¬ (q - 1/10 ≤ 1/10) := not_le.mpr hgt
        rw [if_neg hs, if_neg hnb,
          ih f (q - 1/10) hlad' (by simp only [List.length_cons] at hlen; omega),
          if_neg hs]

/-- For `maxIterations ≥ 7`, the compression loop started at quality 0.8 is
exactly the spec's ladder 0.8, 0.7, …, 0.2 followed by the final 0.1. -/
theorem compressGo_eq_spec (enc : Encoder) (file : InputFile) (t : ℚ)
    (m : ℕ) (hm : 7 ≤ m) :
    compressGo enc file t m (8/10) = specCompressGo enc file t specQualities := by
  have h := compressGo_eq_spec_of_ladder enc file t
      [7/10, 6/10, 5/10, 4/10, 3/10, 2/10] m (8/10)
      (by norm_num [qualityLadder])
      (by simp only [List.length_cons, List.length_nil]; omega)
  simpa [specQualities] using h

theorem compressGo_isOk (enc : Encoder) (file : InputFile) (t : ℚ)
    (hok : ∀ q : ℚ, (convertFormat enc file "jpeg" (qualityOnly q)).isOk = true) :
    ∀ (fuel : ℕ) (q : ℚ), ((compressGo enc file t fuel q).2).isOk = true := by
  intro fuel
  induction fuel with
  | zero =>
    intro q
    rw [compressGo_zero]
    exact hok (1/10)
  | succ f ih =>
    intro q
    rw [compressGo_succ]
    cases hc : convertFormat enc file "jpeg" (qualityOnly q) with
    | error e =>
      have h := hok q
      rw [hc] at h
      simp [Except.isOk, Except.toBool] at h
    | ok c =>
      dsimp only
      by_cases hs : (c.size : ℚ) ≤ t
      · rw [if_pos hs]
        simp [Except.isOk, Except.toBool]
      · by_cases hb : q - 1/10 ≤ 1/10
        · rw [if_neg hs, if_pos hb]
          exact hok (1/10)
        · rw [if_neg hs, if_neg hb]
          exact ih (q - 1/10)

theorem compressGo_length_le_fuel (enc : Encoder) (file : InputFile) (t : ℚ) :
    ∀ (fuel : ℕ) (q : ℚ), (compressGo enc file t fuel q).1.length ≤ fuel + 1 := by
  intro fuel
  induction fuel with
  | zero =>
    intro q
    rw [compressGo_zero]
    simp
  | succ f ih =>
    intro q
    rw [compressGo_succ]
    cases hc : convertFormat enc file "jpeg" (qualityOnly q) with
    | error e =>
      dsimp only
      simp only [List.length_singleton, List.length_nil]
      omega
    | ok c =>
      dsimp only
      by_cases hs : (c.size : ℚ) ≤ t
      · rw [if_pos hs]
        simp only [List.length_singleton, List.length_nil]
        omega
      · by_cases hb : q - 1/10 ≤ 1/10
        · rw [if_neg hs, if_pos hb]
          simp only [List.length_cons, List.length_singleton, List.length_nil]
          omega
        · rw [if_neg hs, if_neg hb]
          have h := ih (q - 1/10)
          simp only [List.length_cons, List.length_nil]
          omega

theorem specCompressGo_length_le (enc : Encoder) (file : InputFile) (t : ℚ) :
    ∀ qs : List ℚ, (specCompressGo enc file t qs).1.length ≤ qs.length + 1 := by
  intro qs
  induction qs with
  | nil =>
    rw [specCompressGo_nil]
    simp
  | cons q rest ih =>
    rw [specCompressGo_cons]
    cases hc : convertFormat enc file "jpeg" (qualityOnly q) with
    | error e =>
      dsimp only
      simp only [List.length_cons, List.length_singleton, List.length_nil]
      omega
    | ok c =>
      dsimp only
      by_cases hs : (c.size : ℚ) ≤ t
      · rw [if_pos hs]
        simp only [List.length_cons, List.length_singleton, List.length_nil]
        omega
      · rw [if_neg hs]
        simp only [List.length_cons, List.length_nil]
        omega

/-- When no conversion ever meets the target, the loop's final answer is the
extra quality-0.1 conversion, for every fuel value and starting quality. -/
theorem compressGo_irreducible (enc : Encoder) (file : InputFile) (t : ℚ)
    (hok : ∀ q : ℚ, (convertFormat enc file "jpeg" (qualityOnly q)).isOk = true)
    (hbig : ∀ (q : ℚ) (b : Blob),
      convertFormat enc file "jpeg" (qualityOnly q) = .ok b →
      ¬ ((b.size : ℚ) ≤ t)) :
    ∀ (fuel : ℕ) (q : ℚ),
      (compressGo enc file t fuel q).2 =
        convertFormat enc file "jpeg" (qualityOnly (1/10)) := by
  intro fuel
  induction fuel with
  | zero =>
    intro q
    rw [compressGo_zero]
  | succ f ih =>
    intro q
    rw [compressGo_succ]
    cases hc : convertFormat enc file "jpeg" (qualityOnly q) with
    | error e =>
      have h := hok q
      rw [hc] at h
      simp [Except.isOk, Except.toBool] at h
    | ok c =>
      dsimp only
      rw [if_neg (hbig q c hc)]
      by_cases hb : q - 1/10 ≤ 1/10
      · rw [if_pos hb]
      · rw [if_neg hb]
        exact ih (q - 1/10)

/-- An encoder/asset pair on which conversions always succeed but the output
(999999 bytes) never fits a 1 KB target. -/
theorem hugeEncoder_never_meets (q : ℚ) (b : Blob)
    (h : convertFormat hugeEncoder jpegAsset "jpeg" (qualityOnly q) = .ok b) :
    ¬ ((b.size : ℚ) ≤ 1 * 1024) := by
  have h0 : convertFormat hugeEncoder jpegAsset "jpeg" (qualityOnly q) =
      .ok ⟨canvasDim 4000, canvasDim 3000, "image/jpeg", 999999⟩ := rfl
  rw [h0] at h
  injection h with h1
  subst h1
  norm_num

/-! ### Claim theorems: size-targeting compressor -/

/-- C6 counterexample: on an undecodable asset, `compressImage` propagates the
decode rejection — it raises an error instead of returning an asset. -/
theorem compressImage_raises_on_undecodable :
    compressImage sampleEncoder corruptAsset 1 10 = .error "圖片載入失敗" := rfl

/-- C6 (amended): for every asset whose conversions succeed,
`compressImage` terminates and returns an asset: the number of conversion
attempts is at most `min maxIterations 7 + 1` (hence at most `maxIterations`
for the default 10); and when no quality can meet the target it returns the
smallest-quality (0.1) result instead of failing.  (On an asset whose
conversion rejects, the rejection propagates — see the counterexample.) -/
theorem compressImage_terminates_bounded (enc : Encoder) (file : InputFile)
    (targetSizeKB : ℚ) (maxIterations : ℕ)
    (hok : ∀ q : ℚ, (convertFormat enc file "jpeg" (qualityOnly q)).isOk = true) :
    (compressImage enc file targetSizeKB maxIterations).isOk = true ∧
    (compressAttempts enc file targetSizeKB maxIterations).length ≤
      min maxIterations 7 + 1 ∧
    ((∀ (q : ℚ) (b : Blob),
        convertFormat enc file "jpeg" (qualityOnly q) = .ok b →
        ¬ ((b.size : ℚ) ≤ targetSizeKB * 1024)) →
      compressImage enc file targetSizeKB maxIterations =
        convertFormat enc file "jpeg" (qualityOnly (1/10))) := by
  refine ⟨?_, ?_, ?_⟩
  · exact compressGo_isOk enc file (targetSizeKB * 1024) hok maxIterations (8/10)
  · unfold compressAttempts
    rcases le_or_lt maxIterations 7 with h7 | h7
    · have h := compressGo_length_le_fuel enc file (targetSizeKB * 1024)
        maxIterations (8/10)
      rw [min_eq_left h7]
      omega
    · rw [compressGo_eq_spec enc file (targetSizeKB * 1024) maxIterations h7.le]
      have h := specCompressGo_length_le enc file (targetSizeKB * 1024)
        specQualities
      have hlen : specQualities.length = 7 := rfl
      rw [min_eq_right h7.le]
      omega
  · intro hbig
    exact compressGo_irreducible enc file (targetSizeKB * 1024) hok hbig
      maxIterations (8/10)

/-- Witness for C6 (amended): asset that always converts to 999999 bytes,
target 1 KB, default maxIterations 10. -/
theorem compressImage_terminates_bounded_witness :
    (compressImage hugeEncoder jpegAsset 1 10).isOk = true ∧
    (compressAttempts hugeEncoder jpegAsset 1 10).length ≤ min 10 7 + 1 ∧
    ((∀ (q : ℚ) (b : Blob),
        convertFormat hugeEncoder jpegAsset "jpeg" (qualityOnly q) = .ok b →
        ¬ ((b.size : ℚ) ≤ 1 * 1024)) →
      compressImage hugeEncoder jpegAsset 1 10 =
        convertFormat hugeEncoder jpegAsset "jpeg" (qualityOnly (1/10))) :=
  compressImage_terminates_bounded hugeEncoder jpegAsset 1 10 (fun _ => rfl)

/-- C7: `compressImage` starts at quality 0.8, returns the first conversion
meeting the target immediately, otherwise lowers the quality by 0.1 per
iteration, and whenever the quality would drop to ≤ 0.1 it stops early and
performs one final conversion at quality 0.1, returned regardless of size:
both the attempted-quality trace and the result coincide with the spec's
ladder description (for any iteration budget covering the ladder, e.g. the
default 10). -/
theorem compressImage_eq_spec_ladder (enc : Encoder) (file : InputFile)
    (targetSizeKB : ℚ) (maxIterations : ℕ) (hm : 7 ≤ maxIterations) :
    (compressAttempts enc file targetSizeKB maxIterations,
     compressImage enc file targetSizeKB maxIterations) =
      specCompressGo enc file (targetSizeKB * 1024) specQualities := by
  unfold compressAttempts compressImage
  rw [compressGo_eq_spec enc file (targetSizeKB * 1024) maxIterations hm]

/-- Witness for C7 at the default iteration budget 10. -/
theorem compressImage_eq_spec_ladder_witness :
    (compressAttempts hugeEncoder jpegAsset 1 10,
     compressImage hugeEncoder jpegAsset 1 10) =
      specCompressGo hugeEncoder jpegAsset (1 * 1024) specQualities :=
  compressImage_eq_spec_ladder hugeEncoder jpegAsset 1 10 (by norm_num)

/-- C10: when no in-budget iteration meets the target, the blob finally
returned is produced by one extra conversion at quality 0.1 after the loop
exits — for every `maxIterations`, including exhaustion with the quality
still well above 0.1: with `maxIterations = 3` the loop attempts qualities
0.8, 0.7, 0.6 and then discards the in-budget 0.6 result in favour of a
final conversion at 0.1. -/
theorem compressImage_discards_in_budget_results (enc : Encoder)
    (file : InputFile) (targetSizeKB : ℚ)
    (hok : ∀ q : ℚ, (convertFormat enc file "jpeg" (qualityOnly q)).isOk = true)
    (hbig : ∀ (q : ℚ) (b : Blob),
      convertFormat enc file "jpeg" (qualityOnly q) = .ok b →
      ¬ ((b.size : ℚ) ≤ targetSizeKB * 1024)) :
    (∀ maxIterations : ℕ,
      compressImage enc file targetSizeKB maxIterations =
        convertFormat enc file "jpeg" (qualityOnly (1/10))) ∧
    compressAttempts enc file targetSizeKB 3 = [8/10, 7/10, 6/10, 1/10] := by
  constructor
  · intro m
    exact compressGo_irreducible enc file (targetSizeKB * 1024) hok hbig m (8/10)
  · unfold compressAttempts
    obtain ⟨b8, hb8⟩ := convert_ok_of_isOk enc file (8/10) (hok _)
    obtain ⟨b7, hb7⟩ := convert_ok_of_isOk enc file (8/10 - 1/10) (hok _)
    obtain ⟨b6, hb6⟩ := convert_ok_of_isOk enc file (8/10 - 1/10 - 1/10) (hok _)
    rw [compressGo_succ enc file (targetSizeKB * 1024) 2 (8/10), hb8]
    dsimp only
    rw [if_neg (hbig _ _ hb8),
      if_neg (by norm_num : ¬ ((8 : ℚ)/10 - 1/10 ≤ 1/10))]
    rw [compressGo_succ enc file (targetSizeKB * 1024) 1 (8/10 - 1/10), hb7]
    dsimp only
    rw [if_neg (hbig _ _ hb7),
      if_neg (by norm_num : ¬ ((8 : ℚ)/10 - 1/10 - 1/10 ≤ 1/10))]
    rw [compressGo_succ enc file (targetSizeKB * 1024) 0 (8/10 - 1/10 - 1/10),
      hb6]
    dsimp only
    rw [if_neg (hbig _ _ hb6),
      if_neg (by norm_num : ¬ ((8 : ℚ)/10 - 1/10 - 1/10 - 1/10 ≤ 1/10))]
    rw [compressGo_zero]
    norm_num

/-- Witness for C10: always-successful conversions of 999999 bytes against a
1 KB target. -/
theorem compressImage_discards_in_budget_results_witness :
    (∀ maxIterations : ℕ,
      compressImage hugeEncoder jpegAsset 1 maxIterations =
        convertFormat hugeEncoder jpegAsset "jpeg" (qualityOnly (1/10))) ∧
    compressAttempts hugeEncoder jpegAsset 1 3 = [8/10, 7/10, 6/10, 1/10] :=
  compressImage_discards_in_budget_results hugeEncoder jpegAsset 1
    (fun _ => rfl) hugeEncoder_never_meets

end FileConverter
